import Mathlib

/-
Verification of the change-propagation signal handlers of django-computedfields
(file computedfields/handlers.py), as a shallow embedding in Lean 4.

Modelling conventions:
- entity types (Django model classes), instance identities, primary keys and
  junction (through) models are numbered by Nat;
- a dependent-update map (a Python dict mapping a model to the pair
  [set of pks, set of field names]) is an insertion-ordered association list,
  matching dict iteration order; Python dict equality is lookup equality,
  captured by dmLookup;
- the thread-local buffers (UPDATE_OLD, DELETES, M2M_REMOVE, M2M_CLEAR) are
  functions from instance identity to an optional dependent-update map;
- the resolver (active_resolver) is an opaque environment of functions, since
  its code lives outside handlers.py; the handlers' calls into it are recorded
  as Effect values in the order the source issues them.
-/

namespace ComputedFields

/-- Entity type (Django model class) identifier. -/
abbrev Model := Nat

/-- Instance identity (the dict key used by the thread-local buffers). -/
abbrev Inst := Nat

/-- Junction (m2m through model) identifier. -/
abbrev Junction := Nat

/-- One dict entry of a dependent-update map: model, pk set, field-name set. -/
abbrev DepEntry := Model × Finset Nat × Finset String

/-- A dependent-update map: Python dict model -> [set of pks, set of fields],
kept as the insertion-ordered entry list of the dict. -/
abbrev DepMap := List DepEntry

/-- Dict lookup: the value stored for a model, scanning entries in order. -/
def dmLookup : DepMap → Model → Option (Finset Nat × Finset String)
  | [], _ => none
  | e :: rest, m => if e.1 = m then some e.2 else dmLookup rest m

/-- The key list of a dependent-update map (dict keys, in order). -/
def dmKeys (mm : DepMap) : List Model := mm.map (·.1)

/-- Pointwise union of two optional (pk set, field set) values. -/
def dmCombine : Option (Finset Nat × Finset String) → Option (Finset Nat × Finset String) →
    Option (Finset Nat × Finset String)
  | none, b => b
  | some a, none => some a
  | some a, some b => some (a.1 ∪ b.1, a.2 ∪ b.2)

/-- One iteration of the merge_pk_maps loop body:
mm1.setdefault(model, [set(), set()]) followed by updating both sets in place.
The first entry with the same model is updated; a missing model is appended at
the end, as dict setdefault does. -/
def updateEntry : DepMap → DepEntry → DepMap
  | [], e => [e]
  | e1 :: rest, e =>
    if e1.1 = e.1 then (e1.1, e1.2.1 ∪ e.2.1, e1.2.2 ∪ e.2.2) :: rest
    else e1 :: updateEntry rest e

/-- merge_pk_maps from handlers.py: add mm2 onto mm1, iterating mm2's entries. -/
def merge_pk_maps (mm1 mm2 : DepMap) : DepMap := mm2.foldl updateEntry mm1

theorem dmKeys_cons (e : DepEntry) (rest : DepMap) :
    dmKeys (e :: rest) = e.1 :: dmKeys rest := rfl

theorem dmLookup_eq_none_of_not_mem {A : DepMap} {m : Model} (h : m ∉ dmKeys A) :
    dmLookup A m = none := by
  induction A with
  | nil => rfl
  | cons e rest ih =>
    rw [dmKeys_cons, List.mem_cons] at h
    push_neg at h
    rw [dmLookup, if_neg (fun hh => h.1 hh.symm)]
    exact ih h.2

theorem dmLookup_updateEntry (A : DepMap) (e : DepEntry) (m : Model) :
    dmLookup (updateEntry A e) m =
      if e.1 = m then dmCombine (dmLookup A m) (some e.2) else dmLookup A m := by
  induction A with
  | nil =>
    by_cases h : e.1 = m <;> simp [updateEntry, dmLookup, dmCombine, h]
  | cons e1 rest ih =>
    by_cases h1 : e1.1 = e.1
    · rw [updateEntry, if_pos h1]
      by_cases h2 : e.1 = m
      · have hm : e1.1 = m := h1.trans h2
        simp [dmLookup, hm, h2, dmCombine]
      · have h3 : ¬ e1.1 = m := fun hh => h2 (h1.symm.trans hh)
        simp [dmLookup, h2, h3]
    · rw [updateEntry, if_neg h1]
      by_cases h2 : e1.1 = m
      · have h3 : ¬ e.1 = m := fun hh => h1 (h2.trans hh.symm)
        simp [dmLookup, h2, h3]
      · simp [dmLookup, h2, ih]

theorem dmCombine_none_right (x : Option (Finset Nat × Finset String)) :
    dmCombine x none = x := by
  cases x <;> rfl

theorem dmCombine_none_left (x : Option (Finset Nat × Finset String)) :
    dmCombine none x = x := rfl

theorem dmCombine_comm (x y : Option (Finset Nat × Finset String)) :
    dmCombine x y = dmCombine y x := by
  cases x <;> cases y <;> simp [dmCombine, Finset.union_comm]

theorem dmCombine_assoc (x y z : Option (Finset Nat × Finset String)) :
    dmCombine (dmCombine x y) z = dmCombine x (dmCombine y z) := by
  cases x <;> cases y <;> cases z <;> simp [dmCombine, Finset.union_assoc]

theorem dmLookup_merge (B : DepMap) (hB : (dmKeys B).Nodup) (A : DepMap) (m : Model) :
    dmLookup (merge_pk_maps A B) m = dmCombine (dmLookup A m) (dmLookup B m) := by
  induction B generalizing A with
  | nil =>
    simp only [merge_pk_maps, List.foldl_nil, dmLookup, dmCombine_none_right]
  | cons e rest ih =>
    rw [dmKeys_cons, List.nodup_cons] at hB
    have hmem : e.1 ∉ dmKeys rest := hB.1
    have hrest : (dmKeys rest).Nodup := hB.2
    show dmLookup (merge_pk_maps (updateEntry A e) rest) m = _
    rw [ih hrest, dmLookup_updateEntry]
    by_cases h : e.1 = m
    · subst h
      rw [if_pos rfl, dmLookup_eq_none_of_not_mem hmem, dmCombine_none_right, dmLookup,
        if_pos rfl]
    · rw [if_neg h, dmLookup, if_neg h]

theorem dmKeys_updateEntry (A : DepMap) (e : DepEntry) :
    dmKeys (updateEntry A e) = if e.1 ∈ dmKeys A then dmKeys A else dmKeys A ++ [e.1] := by
  induction A with
  | nil => simp [updateEntry, dmKeys]
  | cons e1 rest ih =>
    by_cases h1 : e1.1 = e.1
    · rw [updateEntry, if_pos h1]
      have hmem : e.1 ∈ dmKeys (e1 :: rest) := by
        rw [dmKeys_cons, List.mem_cons]
        exact Or.inl h1.symm
      rw [if_pos hmem, dmKeys_cons, dmKeys_cons]
    · rw [updateEntry, if_neg h1]
      have hiff : e.1 ∈ dmKeys (e1 :: rest) ↔ e.1 ∈ dmKeys rest := by
        rw [dmKeys_cons, List.mem_cons]
        constructor
        · rintro (hh | hh)
          · exact absurd hh.symm h1
          · exact hh
        · exact Or.inr
      by_cases h2 : e.1 ∈ dmKeys rest
      · rw [if_pos (hiff.mpr h2), dmKeys_cons, dmKeys_cons, ih, if_pos h2]
      · rw [if_neg (fun hh => h2 (hiff.mp hh)), dmKeys_cons, dmKeys_cons, ih, if_neg h2,
          List.cons_append]

theorem nodup_dmKeys_updateEntry {A : DepMap} (hA : (dmKeys A).Nodup) (e : DepEntry) :
    (dmKeys (updateEntry A e)).Nodup := by
  rw [dmKeys_updateEntry]
  by_cases h : e.1 ∈ dmKeys A
  · rw [if_pos h]
    exact hA
  · rw [if_neg h, List.nodup_append]
    refine ⟨hA, List.nodup_singleton _, ?_⟩
    intro x hx hx'
    rw [List.mem_singleton] at hx'
    exact h (hx' ▸ hx)

theorem nodup_dmKeys_merge (B A : DepMap) (hA : (dmKeys A).Nodup) :
    (dmKeys (merge_pk_maps A B)).Nodup := by
  induction B generalizing A with
  | nil => simpa [merge_pk_maps] using hA
  | cons e rest ih =>
    show (dmKeys (merge_pk_maps (updateEntry A e) rest)).Nodup
    exact ih (updateEntry A e) (nodup_dmKeys_updateEntry hA e)

/-- A thread-local buffer (UPDATE_OLD, DELETES, M2M_REMOVE or M2M_CLEAR):
a dict from instance identity to a dependent-update map. -/
abbrev Store := Inst → Option DepMap

/-- The empty buffer. -/
def emptyStore : Store := fun _ => none

/-- buf[i] = d -/
def storePut (s : Store) (i : Inst) (d : DepMap) : Store :=
  fun j => if j = i then some d else s j

/-- buf.pop(i, default) with an empty default: returns the buffer without the
entry together with the entry's value (the empty map when absent). -/
def storePop (s : Store) (i : Inst) : Store × DepMap :=
  (fun j => if j = i then none else s j, (s i).getD [])

/-- A field object from Model._meta.get_fields(), restricted to the attributes
handlers.py reads: name, the many_to_many flag, whether it is a ManyToManyRel
(reverse descriptor), its through model, and remote_field.name. -/
structure MetaField where
  name : String
  many_to_many : Bool
  isM2MRel : Bool
  through : Junction
  remoteName : String

/-- The resolver (active_resolver) and model metadata, opaque to handlers.py.
fkMap m is active_resolver._fk_map.get(m) with a missing model read as the
empty set (both are falsy in the source's truth tests).
querysetsForUpdate / querysetsForUpdateQs are _querysets_for_update with
pk_list=True for a single instance resp. a pk-filtered queryset; their third
argument is the optional update_fields filter (the handlers always pass none,
i.e. no filtering). accessorPks i n is the pk set of getattr(i, n).all(). -/
structure Env where
  fkMap : Model → Finset String
  preupdateDependent : Inst → Model → DepMap
  querysetsForUpdate : Model → Inst → Option (Finset String) → DepMap
  querysetsForUpdateQs : Model → Finset Nat → Option (Finset String) → DepMap
  getFields : Model → List MetaField
  accessorPks : Inst → String → Finset Nat

/-- A call the handlers make into the resolver, in source order. -/
inductive Effect where
  | updateDependent (i : Inst) (sender : Model) (updateFields : Option (Finset String))
      (old : DepMap) : Effect
  | updateDependentFields (i : Inst) (updateFields : List String) : Effect
  | updateDependentQsFields (model : Model) (pks : Finset Nat)
      (updateFields : List String) : Effect
  | bulkUpdater (model : Model) (pks : Finset Nat) (fields : Finset String) : Effect

/-- bulk_updater(model.objects.filter(pk__in=pks), fields) for every entry of a
popped dependent-update map, in entry order. -/
def bulkUpdates (mm : DepMap) : List Effect :=
  mm.map (fun e => Effect.bulkUpdater e.1 e.2.1 e.2.2)

/-- get_old_handler from handlers.py (pre_save). Returns the new UPDATE_OLD
buffer and whether the resolver was queried (preupdate_dependent reached). -/
def get_old_handler (env : Env) (sender : Model) (inst : Inst) (raw : Bool)
    (updateFields : Option (Finset String)) (adding : Bool) (buf : Store) : Store × Bool :=
  if raw then (buf, false)
  else if adding then (buf, false)
  else
    let contributing := env.fkMap sender
    if contributing = ∅ then (buf, false)
    else
      let candidates :=
        match updateFields with
        | some s => if s = ∅ then contributing else contributing ∩ s
        | none => contributing
      if candidates = ∅ then (buf, false)
      else
        let data := env.preupdateDependent inst sender
        if data = [] then (buf, true) else (storePut buf inst data, true)

/-- postsave_handler from handlers.py (post_save). Returns the new UPDATE_OLD
buffer and the update_dependent call issued, if any. -/
def postsave_handler (sender : Model) (inst : Inst) (raw : Bool)
    (updateFields : Option (Finset String)) (buf : Store) : Store × List Effect :=
  if raw then (buf, [])
  else
    let popped := storePop buf inst
    (popped.1, [Effect.updateDependent inst sender updateFields popped.2])

/-- predelete_handler from handlers.py (pre_delete): snapshot the dependents
as pk lists (no update_fields filter) and store them keyed by the instance. -/
def predelete_handler (env : Env) (sender : Model) (inst : Inst) (buf : Store) : Store :=
  let data := env.querysetsForUpdate sender inst none
  if data = [] then buf else storePut buf inst data

/-- postdelete_handler from handlers.py (post_delete): pop the snapshot (empty
when absent) and bulk-update per dependent model. It takes no resolver and no
database state: it recomputes exactly the keys captured before the delete. -/
def postdelete_handler (inst : Inst) (buf : Store) : Store × List Effect :=
  let popped := storePop buf inst
  (popped.1, bulkUpdates popped.2)

/-- The m2m_changed actions handlers.py reacts to (pre_add fires but has no
branch in the source and falls through). -/
inductive M2MAction where
  | pre_add
  | post_add
  | pre_remove
  | post_remove
  | pre_clear
  | post_clear

/-- The uncaught exception the pre_clear branch can raise: list(filter(...))[0]
on an empty filter result is an IndexError. -/
inductive M2MErr where
  | indexError

/-- The post_add branch: scan the m2m fields of each endpoint type for the
first one whose through model is the firing sender and issue a narrow
update_dependent with update_fields=[f.name]; a side with no match is
silently skipped (the for loop falls through without a break). -/
def m2m_post_add (env : Env) (sender : Junction) (inst : Inst) (instModel : Model)
    (otherModel : Model) (pkSet : Finset Nat) : List Effect :=
  let m2m_fields := (env.getFields instModel).filter (fun f => f.many_to_many)
  let e1 :=
    match m2m_fields.find? (fun f => f.through == sender) with
    | some f => [Effect.updateDependentFields inst [f.name]]
    | none => []
  let m2m_fields2 := (env.getFields otherModel).filter (fun f => f.many_to_many)
  let e2 :=
    match m2m_fields2.find? (fun f => f.through == sender) with
    | some f => [Effect.updateDependentQsFields otherModel pkSet [f.name]]
    | none => []
  e1 ++ e2

/-- The pre_clear other-side read: filter the fields of the instance's type
(reverse firing) or of the other model (forward firing) for a ManyToManyRel
whose through is the sender, take element [0] (IndexError when empty), and
read the current relation value through the corresponding accessor. -/
def m2m_pre_clear_other (env : Env) (sender : Junction) (inst : Inst) (instModel : Model)
    (otherModel : Model) (reverse : Bool) : Except M2MErr DepMap :=
  if reverse then
    match (env.getFields instModel).filter (fun f => f.isM2MRel && f.through == sender) with
    | [] => .error .indexError
    | rel :: _ =>
      .ok (env.querysetsForUpdateQs otherModel (env.accessorPks inst rel.name) none)
  else
    match (env.getFields otherModel).filter (fun f => f.isM2MRel && f.through == sender) with
    | [] => .error .indexError
    | fld :: _ =>
      .ok (env.querysetsForUpdateQs otherModel (env.accessorPks inst fld.remoteName) none)

/-- m2m_handler from handlers.py. Result: the M2M_REMOVE and M2M_CLEAR
buffers after the call and the resolver calls issued, or the uncaught
exception. -/
def m2m_handler (env : Env) (sender : Junction) (inst : Inst) (instModel : Model)
    (action : M2MAction) (otherModel : Model) (pkSet : Finset Nat) (reverse : Bool)
    (rem clr : Store) : Except M2MErr (Store × Store × List Effect) :=
  match action with
  | .pre_add => .ok (rem, clr, [])
  | .post_add => .ok (rem, clr, m2m_post_add env sender inst instModel otherModel pkSet)
  | .pre_remove =>
    let data := env.querysetsForUpdate instModel inst none
    let other := env.querysetsForUpdateQs otherModel pkSet none
    let data2 := if other ≠ [] then merge_pk_maps data other else data
    .ok (if data2 ≠ [] then storePut rem inst data2 else rem, clr, [])
  | .post_remove =>
    let popped := storePop rem inst
    .ok (popped.1, clr, bulkUpdates popped.2)
  | .pre_clear =>
    let data := env.querysetsForUpdate instModel inst none
    match m2m_pre_clear_other env sender inst instModel otherModel reverse with
    | .error e => .error e
    | .ok other =>
      let data2 := if other ≠ [] then merge_pk_maps data other else data
      .ok (rem, if data2 ≠ [] then storePut clr inst data2 else clr, [])
  | .post_clear =>
    let popped := storePop clr inst
    .ok (rem, popped.1, bulkUpdates popped.2)

/-- A concrete resolver environment used to instantiate hypotheses on
concrete inputs. -/
def env0 : Env where
  fkMap := fun _ => ∅
  preupdateDependent := fun _ _ => []
  querysetsForUpdate := fun _ _ _ => [(2, {5}, {"comp"})]
  querysetsForUpdateQs := fun _ _ _ => []
  getFields := fun _ => []
  accessorPks := fun _ _ => ∅

/-- Concrete dependent-update maps used to instantiate hypotheses. -/
def dmA : DepMap := [(0, {1}, {"a"})]

def dmB : DepMap := [(0, {2}, {"b"}), (1, {3}, {"c"})]

def dmC : DepMap := [(1, {4}, {"d"})]

/-- C1: deleting an instance snapshots its full dependent-update map in the
pre-delete phase (predelete_handler calls _querysets_for_update with no
update_fields filter, here the literal none, and with pk_list=True so the keys
are materialized in the stored map) keyed by the instance, and the post-delete
phase pops that snapshot and bulk-recomputes, per dependent model, exactly the
pk/field sets captured before the delete: postdelete_handler consults only the
buffer, never the post-delete database state, so the recomputed records are
those that existed immediately before deletion. The hypothesis says the buffer
holds no stale entry for the instance, the invariant the spec assumes of one
mutation's pre/post pair. -/
theorem predelete_snapshot_postdelete_recompute (env : Env) (sender : Model) (inst : Inst)
    (buf : Store) (h : buf inst = none) :
    (postdelete_handler inst (predelete_handler env sender inst buf)).2 =
      bulkUpdates (env.querysetsForUpdate sender inst none) ∧
    (postdelete_handler inst (predelete_handler env sender inst buf)).1 inst = none := by
  unfold predelete_handler postdelete_handler storePop storePut bulkUpdates
  by_cases hd : env.querysetsForUpdate sender inst none = []
  · simp [hd, h]
  · simp [hd]

theorem predelete_snapshot_postdelete_recompute_witness :
    (postdelete_handler 1 (predelete_handler env0 0 1 emptyStore)).2 =
      bulkUpdates (env0.querysetsForUpdate 0 1 none) ∧
    (postdelete_handler 1 (predelete_handler env0 0 1 emptyStore)).1 1 = none :=
  predelete_snapshot_postdelete_recompute env0 0 1 emptyStore rfl

/-- C2: every lifecycle phase that receives the raw (fixtures/bulk-load)
marker is a complete no-op when it is set: the pre-save phase stores nothing
and issues no query, and the post-save phase issues no update_dependent call
and leaves the buffer untouched. These two phases are the only ones the
signal framework hands the raw flag to. -/
theorem raw_marker_noop (env : Env) (sender : Model) (inst : Inst)
    (updateFields : Option (Finset String)) (adding : Bool) (buf : Store) :
    get_old_handler env sender inst true updateFields adding buf = (buf, false) ∧
    postsave_handler sender inst true updateFields buf = (buf, []) :=
  ⟨rfl, rfl⟩

/-- C3: the pre-save handler returns without storing a buffer entry and
without reaching the resolver query (the Bool result is false) whenever the
instance is new, or its type has no contributing foreign keys, or the set of
updated fields is known and meets the contributing foreign keys in the empty
set; only otherwise does it query the old-relation dependents and store the
nonempty result keyed by the instance. The source tests truthiness of
update_fields, so the known set is taken nonempty here: the save machinery
skips a save with an empty update_fields set entirely, so the pre-save event
never fires with one. -/
theorem get_old_handler_skip_and_store (env : Env) (sender : Model) (inst : Inst)
    (raw : Bool) (updateFields : Option (Finset String)) (adding : Bool) (buf : Store) :
    (adding = true ∨ env.fkMap sender = ∅ ∨
        (∃ s, updateFields = some s ∧ s ≠ ∅ ∧ env.fkMap sender ∩ s = ∅) →
      get_old_handler env sender inst raw updateFields adding buf = (buf, false)) ∧
    (raw = false → adding = false → env.fkMap sender ≠ ∅ →
        (∀ s, updateFields = some s → s ≠ ∅ → env.fkMap sender ∩ s ≠ ∅) →
      get_old_handler env sender inst raw updateFields adding buf =
        (if env.preupdateDependent inst sender = [] then buf
         else storePut buf inst (env.preupdateDependent inst sender), true)) := by
  constructor
  · rintro (ha | hfk | ⟨s, hs, hsne, hint⟩)
    · cases raw <;> simp [get_old_handler, ha]
    · cases raw <;> cases adding <;> simp [get_old_handler, hfk]
    · cases raw <;> cases adding <;>
        by_cases hfk : env.fkMap sender = ∅ <;>
        simp [get_old_handler, hs, hsne, hint, hfk]
  · intro hraw hadd hfk hint
    subst hraw
    subst hadd
    cases updateFields with
    | none =>
      simp only [get_old_handler, Bool.false_eq_true, if_false]
      rw [if_neg hfk]
      by_cases hd : env.preupdateDependent inst sender = [] <;> simp [hd, hfk]
    | some s =>
      simp only [get_old_handler, Bool.false_eq_true, if_false]
      by_cases hse : s = ∅
      · rw [if_neg hfk, if_pos hse, if_neg hfk]
        by_cases hd : env.preupdateDependent inst sender = [] <;> simp [hd, hfk]
      · rw [if_neg hfk, if_neg hse, if_neg (hint s rfl hse)]
        by_cases hd : env.preupdateDependent inst sender = [] <;>
          simp [hd, hfk, hint s rfl hse]

theorem get_old_handler_skip_and_store_witness :
    get_old_handler env0 0 7 false none true emptyStore = (emptyStore, false) :=
  (get_old_handler_skip_and_store env0 0 7 false none true emptyStore).1 (Or.inl rfl)

/-- C8: each post-phase handler tolerates a missing pre-phase buffer entry,
proceeding with the empty captured map (the pop's default), and removes any
existing entry for the instance, leaving no entry behind for a completed
mutation: the buffer evaluated at the instance after the phase is none. The
post-save phase is taken with the raw flag unset, the lifecycle in which the
spec has it pop at all (a raw phase is the complete no-op of the edge
policy); the delete and m2m post phases receive no raw flag. -/
theorem post_phase_pop_or_empty (env : Env) (sender : Model) (inst : Inst)
    (instModel otherModel : Model) (pkSet : Finset Nat) (reverse : Bool)
    (updateFields : Option (Finset String)) (bufU bufD rem clr : Store) :
    ((postsave_handler sender inst false updateFields bufU).1 inst = none ∧
      (postsave_handler sender inst false updateFields bufU).2 =
        [Effect.updateDependent inst sender updateFields ((bufU inst).getD [])]) ∧
    ((postdelete_handler inst bufD).1 inst = none ∧
      (postdelete_handler inst bufD).2 = bulkUpdates ((bufD inst).getD [])) ∧
    (m2m_handler env sender inst instModel .post_remove otherModel pkSet reverse rem clr =
        .ok ((storePop rem inst).1, clr, bulkUpdates ((rem inst).getD [])) ∧
      (storePop rem inst).1 inst = none) ∧
    (m2m_handler env sender inst instModel .post_clear otherModel pkSet reverse rem clr =
        .ok (rem, (storePop clr inst).1, bulkUpdates ((clr inst).getD [])) ∧
      (storePop clr inst).1 inst = none) := by
  refine ⟨⟨?_, rfl⟩, ⟨?_, rfl⟩, ⟨rfl, ?_⟩, ⟨rfl, ?_⟩⟩ <;>
    simp [postsave_handler, postdelete_handler, storePop]

/-- C4: merge_pk_maps is commutative and associative as an equation on the
resulting dict value (lookup per model, with set values compared as sets),
the empty map is a two-sided identity (merging the empty map onto mm1 returns
mm1 itself unchanged), and for every model present in either argument the
result holds the union of the pk sets and of the field-name sets, stated via
dmCombine. The Nodup hypotheses say the key lists are duplicate-free, which
every Python dict satisfies. -/
theorem merge_pk_maps_comm_assoc_identity (A B C : DepMap)
    (hA : (dmKeys A).Nodup) (hB : (dmKeys B).Nodup) (hC : (dmKeys C).Nodup) :
    (∀ m, dmLookup (merge_pk_maps A B) m = dmLookup (merge_pk_maps B A) m) ∧
    (∀ m, dmLookup (merge_pk_maps (merge_pk_maps A B) C) m =
      dmLookup (merge_pk_maps A (merge_pk_maps B C)) m) ∧
    merge_pk_maps A [] = A ∧
    (∀ m, dmLookup (merge_pk_maps [] A) m = dmLookup A m) ∧
    (∀ m, dmLookup (merge_pk_maps A B) m = dmCombine (dmLookup A m) (dmLookup B m)) := by
  refine ⟨?_, ?_, rfl, ?_, ?_⟩
  · intro m
    rw [dmLookup_merge B hB A m, dmLookup_merge A hA B m, dmCombine_comm]
  · intro m
    rw [dmLookup_merge C hC _ m, dmLookup_merge B hB A m,
      dmLookup_merge (merge_pk_maps B C) (nodup_dmKeys_merge C B hB) A m,
      dmLookup_merge C hC B m, dmCombine_assoc]
  · intro m
    rw [dmLookup_merge A hA [] m]
    rfl
  · intro m
    exact dmLookup_merge B hB A m

theorem merge_pk_maps_comm_assoc_identity_witness :
    dmLookup (merge_pk_maps dmA dmB) 0 = dmLookup (merge_pk_maps dmB dmA) 0 :=
  (merge_pk_maps_comm_assoc_identity dmA dmB dmC (by decide) (by decide) (by decide)).1 0

/-- C9: a dependent-update map keeps each dependent model at most once as a
key (merge_pk_maps preserves duplicate-freeness of the key list), and merging
another map into it only grows the per-model pk and field-name sets: every
value present before the merge is still present, included in the value after
the merge. -/
theorem dependent_map_invariant (A B : DepMap) (hA : (dmKeys A).Nodup)
    (hB : (dmKeys B).Nodup) :
    (dmKeys (merge_pk_maps A B)).Nodup ∧
    (∀ m p f, dmLookup A m = some (p, f) →
      ∃ p2 f2, dmLookup (merge_pk_maps A B) m = some (p2, f2) ∧ p ⊆ p2 ∧ f ⊆ f2) := by
  refine ⟨nodup_dmKeys_merge B A hA, ?_⟩
  intro m p f h
  rw [dmLookup_merge B hB A m, h]
  cases h2 : dmLookup B m with
  | none => exact ⟨p, f, rfl, subset_rfl, subset_rfl⟩
  | some v =>
    exact ⟨p ∪ v.1, f ∪ v.2, rfl, Finset.subset_union_left, Finset.subset_union_left⟩

theorem dependent_map_invariant_witness :
    ∃ p2 f2, dmLookup (merge_pk_maps dmA dmB) 0 = some (p2, f2) ∧
      ({1} : Finset Nat) ⊆ p2 ∧ ({"a"} : Finset String) ⊆ f2 :=
  (dependent_map_invariant dmA dmB (by decide) (by decide)).2 0 {1} {"a"} rfl

/-- A resolver environment whose two models 0 and 1 both declare an m2m field
backed by the through model 5, used to instantiate the m2m hypotheses. -/
def envM : Env where
  fkMap := fun _ => ∅
  preupdateDependent := fun _ _ => []
  querysetsForUpdate := fun _ _ _ => dmA
  querysetsForUpdateQs := fun _ _ _ => dmB
  getFields := fun m =>
    if m = 0 then [⟨"tags", true, true, 5, "articles"⟩]
    else [⟨"articles", true, true, 5, "tags"⟩]
  accessorPks := fun _ _ => {9}

theorem merge_branch_eq (data other : DepMap) :
    (if other ≠ [] then merge_pk_maps data other else data) = merge_pk_maps data other := by
  by_cases h : other = [] <;> simp [h, merge_pk_maps]

theorem storeGetD_put_or_keep (buf : Store) (inst : Inst) (d : DepMap)
    (h : buf inst = none) :
    (((if d ≠ [] then storePut buf inst d else buf) : Store) inst).getD [] = d := by
  by_cases hd : d = []
  · simp [hd, h]
  · simp [hd, storePut]

/-- C6: the post_add branch consults no pre-phase capture (the buffers are
returned unchanged whatever they hold, and the effects do not depend on
them); it scans both endpoint types' many-to-many field declarations for the
first one whose through model equals the firing sender and issues exactly two
independent narrow recomputations: update_dependent on the owning instance
with update_fields=[f1.name], and update_dependent on the added-side pk-set
queryset with update_fields=[f2.name]. -/
theorem m2m_post_add_two_narrow_updates (env : Env) (sender : Junction) (inst : Inst)
    (instModel otherModel : Model) (pkSet : Finset Nat) (reverse : Bool)
    (rem clr : Store) (f1 f2 : MetaField)
    (h1 : ((env.getFields instModel).filter (fun f => f.many_to_many)).find?
        (fun f => f.through == sender) = some f1)
    (h2 : ((env.getFields otherModel).filter (fun f => f.many_to_many)).find?
        (fun f => f.through == sender) = some f2) :
    m2m_handler env sender inst instModel .post_add otherModel pkSet reverse rem clr =
      .ok (rem, clr,
        [Effect.updateDependentFields inst [f1.name],
         Effect.updateDependentQsFields otherModel pkSet [f2.name]]) := by
  simp [m2m_handler, m2m_post_add, h1, h2]

theorem m2m_post_add_two_narrow_updates_witness :
    m2m_handler envM 5 3 0 .post_add 1 {7} false emptyStore emptyStore =
      .ok (emptyStore, emptyStore,
        [Effect.updateDependentFields 3 ["tags"],
         Effect.updateDependentQsFields 1 {7} ["articles"]]) :=
  m2m_post_add_two_narrow_updates envM 5 3 0 1 {7} false emptyStore emptyStore
    ⟨"tags", true, true, 5, "articles"⟩ ⟨"articles", true, true, 5, "tags"⟩ rfl rfl

/-- C5 counterexample: with a firing junction (sender 0) matching no
many-to-many field declaration of either endpoint type, the post_add branch
raises no error of any kind and issues no recomputation at all: the for loops
fall through without a break and the handler returns silently, contradicting
the claim that every many-to-many action fails loudly with a clear
configuration error in this situation. -/
theorem m2m_missing_declaration_counterexample :
    m2m_handler envM 0 3 0 .post_add 1 {7} false emptyStore emptyStore =
      .ok (emptyStore, emptyStore, []) ∧
    ∀ err, m2m_handler envM 0 3 0 .post_add 1 {7} false emptyStore emptyStore ≠
      .error err :=
  ⟨rfl, fun _ h => Except.noConfusion h⟩

/-- C5 amended: when the firing junction matches no field declaration on
either endpoint, post_add silently skips (no recomputation, no error, buffers
untouched), while pre_clear raises an uncaught IndexError from taking element
[0] of the empty filter result, whichever side fired — an unhandled exception
rather than a clear configuration error, and the remove actions perform no
declaration matching at all. -/
theorem m2m_missing_declaration_behavior (env : Env) (sender : Junction) (inst : Inst)
    (instModel otherModel : Model) (pkSet : Finset Nat) (rem clr : Store)
    (h1 : ((env.getFields instModel).filter (fun f => f.many_to_many)).find?
        (fun f => f.through == sender) = none)
    (h2 : ((env.getFields otherModel).filter (fun f => f.many_to_many)).find?
        (fun f => f.through == sender) = none)
    (h3 : (env.getFields instModel).filter (fun f => f.isM2MRel && f.through == sender) = [])
    (h4 : (env.getFields otherModel).filter (fun f => f.isM2MRel && f.through == sender) = []) :
    (∀ reverse,
      m2m_handler env sender inst instModel .post_add otherModel pkSet reverse rem clr =
        .ok (rem, clr, [])) ∧
    (∀ reverse,
      m2m_handler env sender inst instModel .pre_clear otherModel pkSet reverse rem clr =
        .error .indexError) := by
  constructor
  · intro _
    simp [m2m_handler, m2m_post_add, h1, h2]
  · intro reverse
    cases reverse <;> simp [m2m_handler, m2m_pre_clear_other, h3, h4]

theorem m2m_missing_declaration_behavior_witness :
    m2m_handler env0 0 3 0 .pre_clear 1 {7} true emptyStore emptyStore =
      .error .indexError :=
  (m2m_missing_declaration_behavior env0 0 3 0 1 {7} emptyStore emptyStore
    rfl rfl rfl rfl).2 true

/-- C7: the pre_remove and pre_clear branches snapshot the mutating
instance's own dependent-update map and the other side's map, merge them with
merge_pk_maps, and make the merged map the buffer content observed for the
instance (when the merged map is empty no entry is stored and the pop default
yields the same empty map). For pre_clear the other side is read from the
current relation value: through the reverse accessor rel.name of the first
matching ManyToManyRel on the instance's type when the event fired on the
reverse side, and through the forward accessor fld.remoteName derived from
the other model's matching ManyToManyRel otherwise. The matching post phases
pop the entry and bulk-recompute per dependent model. hrem and hclr say no
stale entry precedes the mutation, the spec's assumed invariant. -/
theorem m2m_pre_remove_clear_snapshot_merge (env : Env) (sender : Junction) (inst : Inst)
    (instModel otherModel : Model) (pkSet : Finset Nat) (rem clr : Store)
    (rel fld : MetaField) (restR restF : List MetaField)
    (hrem : rem inst = none) (hclr : clr inst = none)
    (hrel : (env.getFields instModel).filter (fun f => f.isM2MRel && f.through == sender) =
      rel :: restR)
    (hfld : (env.getFields otherModel).filter (fun f => f.isM2MRel && f.through == sender) =
      fld :: restF) :
    (∃ rem2 : Store,
      (∀ reverse,
        m2m_handler env sender inst instModel .pre_remove otherModel pkSet reverse rem clr =
          .ok (rem2, clr, [])) ∧
      (rem2 inst).getD [] =
        merge_pk_maps (env.querysetsForUpdate instModel inst none)
          (env.querysetsForUpdateQs otherModel pkSet none)) ∧
    (∃ clr2 : Store,
      m2m_handler env sender inst instModel .pre_clear otherModel pkSet true rem clr =
        .ok (rem, clr2, []) ∧
      (clr2 inst).getD [] =
        merge_pk_maps (env.querysetsForUpdate instModel inst none)
          (env.querysetsForUpdateQs otherModel (env.accessorPks inst rel.name) none)) ∧
    (∃ clr3 : Store,
      m2m_handler env sender inst instModel .pre_clear otherModel pkSet false rem clr =
        .ok (rem, clr3, []) ∧
      (clr3 inst).getD [] =
        merge_pk_maps (env.querysetsForUpdate instModel inst none)
          (env.querysetsForUpdateQs otherModel (env.accessorPks inst fld.remoteName) none)) ∧
    (∀ bufR M, bufR inst = some M →
      m2m_handler env sender inst instModel .post_remove otherModel pkSet true bufR clr =
        .ok ((storePop bufR inst).1, clr, bulkUpdates M) ∧
      (storePop bufR inst).1 inst = none) ∧
    (∀ bufC M, bufC inst = some M →
      m2m_handler env sender inst instModel .post_clear otherModel pkSet true rem bufC =
        .ok (rem, (storePop bufC inst).1, bulkUpdates M) ∧
      (storePop bufC inst).1 inst = none) := by
  refine ⟨?_, ?_, ?_, ?_, ?_⟩
  · refine ⟨if merge_pk_maps (env.querysetsForUpdate instModel inst none)
        (env.querysetsForUpdateQs otherModel pkSet none) ≠ [] then
        storePut rem inst (merge_pk_maps (env.querysetsForUpdate instModel inst none)
          (env.querysetsForUpdateQs otherModel pkSet none))
      else rem, fun _ => ?_, ?_⟩
    · simp only [m2m_handler]
      rw [merge_branch_eq]
    · exact storeGetD_put_or_keep rem inst _ hrem
  · refine ⟨if merge_pk_maps (env.querysetsForUpdate instModel inst none)
        (env.querysetsForUpdateQs otherModel (env.accessorPks inst rel.name) none) ≠ [] then
        storePut clr inst (merge_pk_maps (env.querysetsForUpdate instModel inst none)
          (env.querysetsForUpdateQs otherModel (env.accessorPks inst rel.name) none))
      else clr, ?_, ?_⟩
    · simp only [m2m_handler, m2m_pre_clear_other, if_pos rfl, hrel, if_true]
      rw [merge_branch_eq]
    · exact storeGetD_put_or_keep clr inst _ hclr
  · refine ⟨if merge_pk_maps (env.querysetsForUpdate instModel inst none)
        (env.querysetsForUpdateQs otherModel (env.accessorPks inst fld.remoteName) none) ≠ [] then
        storePut clr inst (merge_pk_maps (env.querysetsForUpdate instModel inst none)
          (env.querysetsForUpdateQs otherModel (env.accessorPks inst fld.remoteName) none))
      else clr, ?_, ?_⟩
    · simp only [m2m_handler, m2m_pre_clear_other, hfld, Bool.false_eq_true, if_false]
      rw [merge_branch_eq]
    · exact storeGetD_put_or_keep clr inst _ hclr
  · intro bufR M h
    exact ⟨by simp [m2m_handler, storePop, h], by simp [storePop]⟩
  · intro bufC M h
    exact ⟨by simp [m2m_handler, storePop, h], by simp [storePop]⟩

theorem m2m_pre_remove_clear_snapshot_merge_witness :
    m2m_handler envM 5 3 0 .post_remove 1 {7} true (storePut emptyStore 3 dmA) emptyStore =
      .ok ((storePop (storePut emptyStore 3 dmA) 3).1, emptyStore, bulkUpdates dmA) ∧
    (storePop (storePut emptyStore 3 dmA) 3).1 3 = none :=
  (m2m_pre_remove_clear_snapshot_merge envM 5 3 0 1 {7} emptyStore emptyStore
    ⟨"tags", true, true, 5, "articles"⟩ ⟨"articles", true, true, 5, "tags"⟩ [] []
    rfl rfl rfl rfl).2.2.2.1 (storePut emptyStore 3 dmA) dmA rfl

/-- Heap of mutable Python set objects, for the object-identity view of
merge_pk_maps: pkMem holds the pk set objects, fMem the field-name set
objects, next is the next fresh address. -/
structure Heap where
  pkMem : Nat → Finset Nat
  fMem : Nat → Finset String
  next : Nat

/-- A dict entry at heap level: model, address of its pk set object, address
of its field-name set object. -/
abbrev HEntry := Nat × Nat × Nat

/-- A dependent-update map at heap level: its entries hold references to the
two set objects instead of values. -/
abbrev HMap := List HEntry

/-- Heap write at one address. -/
def memUpd {α : Type} (g : Nat → α) (a : Nat) (v : α) : Nat → α :=
  fun x => if x = a then v else g x

/-- Reference lookup of a model's (pk set, field set) address pair. -/
def hFind : HMap → Nat → Option (Nat × Nat)
  | [], _ => none
  | e :: rest, m => if e.1 = m then some e.2 else hFind rest m

/-- The addresses of every set object an HMap's entries refer to. -/
def hAddrs : HMap → List Nat
  | [] => []
  | e :: rest => e.2.1 :: e.2.2 :: hAddrs rest

/-- The merge_pk_maps loop body at heap level. When mm1 already holds the
model, the two existing set objects of mm1 are updated in place with the
union (the fresh [set(), set()] Python builds for setdefault is discarded
unused and is omitted here); when it does not, two fresh set objects are
allocated holding copies of mm2's element values and a new entry referring
to them is appended to mm1. mm2's entries and set objects are never written. -/
def hUpdateEntry (h : Heap) (mm1 : HMap) (e : HEntry) : Heap × HMap :=
  match hFind mm1 e.1 with
  | some ab =>
    ({ h with
        pkMem := memUpd h.pkMem ab.1 (h.pkMem ab.1 ∪ h.pkMem e.2.1),
        fMem := memUpd h.fMem ab.2 (h.fMem ab.2 ∪ h.fMem e.2.2) }, mm1)
  | none =>
    ({ pkMem := memUpd h.pkMem h.next (h.pkMem e.2.1),
       fMem := memUpd h.fMem (h.next + 1) (h.fMem e.2.2),
       next := h.next + 2 }, mm1 ++ [(e.1, h.next, h.next + 1)])

/-- merge_pk_maps at heap level: fold hUpdateEntry over mm2's entries. -/
def hMerge (h : Heap) (mm1 : HMap) : HMap → Heap × HMap
  | [] => (h, mm1)
  | e :: rest => hMerge (hUpdateEntry h mm1 e).1 (hUpdateEntry h mm1 e).2 rest

theorem hAddrs_append (l1 l2 : HMap) : hAddrs (l1 ++ l2) = hAddrs l1 ++ hAddrs l2 := by
  induction l1 with
  | nil => rfl
  | cons e rest ih => simp [hAddrs, ih]

theorem hFind_mem {mm : HMap} {m : Nat} {ab : Nat × Nat} (h : hFind mm m = some ab) :
    ab.1 ∈ hAddrs mm ∧ ab.2 ∈ hAddrs mm := by
  induction mm with
  | nil => simp [hFind] at h
  | cons e rest ih =>
    rw [hFind] at h
    by_cases he : e.1 = m
    · rw [if_pos he] at h
      injection h with h2
      subst h2
      exact ⟨by simp [hAddrs], by simp [hAddrs]⟩
    · rw [if_neg he] at h
      obtain ⟨ha, hb⟩ := ih h
      exact ⟨by simp [hAddrs, ha], by simp [hAddrs, hb]⟩

theorem hUpdateEntry_eq_found (h : Heap) (mm1 : HMap) (e : HEntry) (ab : Nat × Nat)
    (hf : hFind mm1 e.1 = some ab) :
    hUpdateEntry h mm1 e =
      ({ h with
          pkMem := memUpd h.pkMem ab.1 (h.pkMem ab.1 ∪ h.pkMem e.2.1),
          fMem := memUpd h.fMem ab.2 (h.fMem ab.2 ∪ h.fMem e.2.2) }, mm1) := by
  unfold hUpdateEntry
  rw [hf]

theorem hUpdateEntry_eq_none (h : Heap) (mm1 : HMap) (e : HEntry)
    (hf : hFind mm1 e.1 = none) :
    hUpdateEntry h mm1 e =
      ({ pkMem := memUpd h.pkMem h.next (h.pkMem e.2.1),
         fMem := memUpd h.fMem (h.next + 1) (h.fMem e.2.2),
         next := h.next + 2 }, mm1 ++ [(e.1, h.next, h.next + 1)]) := by
  unfold hUpdateEntry
  rw [hf]

theorem hUpdateEntry_spec (h : Heap) (mm1 : HMap) (e : HEntry)
    (h1 : ∀ a ∈ hAddrs mm1, a < h.next) :
    (∀ a, a < h.next → a ∉ hAddrs mm1 →
      (hUpdateEntry h mm1 e).1.pkMem a = h.pkMem a ∧
      (hUpdateEntry h mm1 e).1.fMem a = h.fMem a) ∧
    h.next ≤ (hUpdateEntry h mm1 e).1.next ∧
    (∃ ext, (hUpdateEntry h mm1 e).2 = mm1 ++ ext ∧ ∀ a ∈ hAddrs ext, h.next ≤ a) ∧
    (∀ a ∈ hAddrs (hUpdateEntry h mm1 e).2, a < (hUpdateEntry h mm1 e).1.next) := by
  cases hf : hFind mm1 e.1 with
  | some ab =>
    obtain ⟨hab1, hab2⟩ := hFind_mem hf
    rw [hUpdateEntry_eq_found h mm1 e ab hf]
    refine ⟨?_, le_refl _, ⟨[], by simp, by simp [hAddrs]⟩, h1⟩
    intro a _ hna
    constructor
    · show memUpd h.pkMem ab.1 _ a = h.pkMem a
      rw [memUpd, if_neg (fun hh : a = ab.1 => hna (hh ▸ hab1))]
    · show memUpd h.fMem ab.2 _ a = h.fMem a
      rw [memUpd, if_neg (fun hh : a = ab.2 => hna (hh ▸ hab2))]
  | none =>
    rw [hUpdateEntry_eq_none h mm1 e hf]
    refine ⟨?_, by simp, ⟨[(e.1, h.next, h.next + 1)], rfl, ?_⟩, ?_⟩
    · intro a ha _
      constructor
      · show memUpd h.pkMem h.next _ a = h.pkMem a
        rw [memUpd, if_neg (fun hh : a = h.next => absurd ha (hh ▸ lt_irrefl h.next))]
      · show memUpd h.fMem (h.next + 1) _ a = h.fMem a
        rw [memUpd, if_neg ?_]
        intro hh
        exact absurd (hh ▸ ha) (by simp)
    · intro a ha
      simp only [hAddrs, List.mem_cons, List.not_mem_nil, or_false] at ha
      rcases ha with rfl | rfl
      · exact le_refl _
      · exact Nat.le_succ _
    · intro a ha
      rw [hAddrs_append, List.mem_append] at ha
      cases ha with
      | inl hm =>
        show a < h.next + 2
        exact lt_of_lt_of_le (h1 a hm) (by simp)
      | inr hm =>
        simp only [hAddrs, List.mem_cons, List.not_mem_nil, or_false] at hm
        rcases hm with rfl | rfl
        · show h.next < h.next + 2
          simp
        · show h.next + 1 < h.next + 2
          simp

theorem hMerge_spec (mm2 : HMap) (h : Heap) (mm1 : HMap)
    (h1 : ∀ a ∈ hAddrs mm1, a < h.next) :
    (∀ a, a < h.next → a ∉ hAddrs mm1 →
      (hMerge h mm1 mm2).1.pkMem a = h.pkMem a ∧
      (hMerge h mm1 mm2).1.fMem a = h.fMem a) ∧
    h.next ≤ (hMerge h mm1 mm2).1.next ∧
    (∃ ext, (hMerge h mm1 mm2).2 = mm1 ++ ext ∧ ∀ a ∈ hAddrs ext, h.next ≤ a) ∧
    (∀ a ∈ hAddrs (hMerge h mm1 mm2).2, a < (hMerge h mm1 mm2).1.next) := by
  induction mm2 generalizing h mm1 with
  | nil =>
    exact ⟨fun a _ _ => ⟨rfl, rfl⟩, le_refl _, ⟨[], by simp [hMerge], by simp [hAddrs]⟩, h1⟩
  | cons e rest ih =>
    obtain ⟨sf, sn, ⟨ext1, hext1, hge1⟩, sb⟩ := hUpdateEntry_spec h mm1 e h1
    have key : hMerge h mm1 (e :: rest) =
        hMerge (hUpdateEntry h mm1 e).1 (hUpdateEntry h mm1 e).2 rest := rfl
    rw [key]
    obtain ⟨rf, rn, ⟨ext2, hext2, hge2⟩, rb⟩ :=
      ih (hUpdateEntry h mm1 e).1 (hUpdateEntry h mm1 e).2 sb
    refine ⟨?_, le_trans sn rn, ⟨ext1 ++ ext2, ?_, ?_⟩, rb⟩
    · intro a ha hna
      have hna2 : a ∉ hAddrs (hUpdateEntry h mm1 e).2 := by
        rw [hext1, hAddrs_append, List.mem_append]
        rintro (hmem | hmem)
        · exact hna hmem
        · exact absurd ha (not_lt.mpr (hge1 a hmem))
      obtain ⟨hp, hq⟩ := rf a (lt_of_lt_of_le ha sn) hna2
      obtain ⟨hp2, hq2⟩ := sf a ha hna
      exact ⟨hp.trans hp2, hq.trans hq2⟩
    · rw [hext2, hext1, List.append_assoc]
    · intro a hmem
      rw [hAddrs_append, List.mem_append] at hmem
      cases hmem with
      | inl hm => exact hge1 a hm
      | inr hm => exact le_trans sn (hge2 a hm)

/-- C10: at the object-identity (heap) level, merge_pk_maps returns its first
argument dict with entries appended to it (the mutated mm1), leaves its
second argument entirely unchanged — no heap cell referred to by mm2 is
written, so every pk set and field set of mm2 holds its old value — and the
returned map shares no mutable set object with mm2: every address the result
refers to is either a pre-existing address of mm1 or freshly allocated, never
an address of mm2, so later mutation of the result cannot alter mm2. The
hypotheses say all of mm1's and mm2's objects live below the allocation
frontier and that the two dicts share no set objects with each other, as
holds for the two freshly built maps the handlers pass in. -/
theorem merge_pk_maps_frame (h : Heap) (mm1 mm2 : HMap)
    (h1 : ∀ a ∈ hAddrs mm1, a < h.next)
    (h2 : ∀ a ∈ hAddrs mm2, a < h.next)
    (hdisj : ∀ a ∈ hAddrs mm1, a ∉ hAddrs mm2) :
    (∀ a ∈ hAddrs mm2, (hMerge h mm1 mm2).1.pkMem a = h.pkMem a ∧
      (hMerge h mm1 mm2).1.fMem a = h.fMem a) ∧
    (∃ ext, (hMerge h mm1 mm2).2 = mm1 ++ ext) ∧
    (∀ a ∈ hAddrs (hMerge h mm1 mm2).2, a ∉ hAddrs mm2) := by
  obtain ⟨hframe, hnext, ⟨ext, hext, hge⟩, hlt⟩ := hMerge_spec mm2 h mm1 h1
  refine ⟨?_, ⟨ext, hext⟩, ?_⟩
  · intro a ha
    exact hframe a (h2 a ha) (fun hmem => hdisj a hmem ha)
  · intro a ha hmem2
    rw [hext, hAddrs_append, List.mem_append] at ha
    cases ha with
    | inl h' => exact hdisj a h' hmem2
    | inr h' => exact absurd (h2 a hmem2) (not_lt.mpr (hge a h'))

/-- A concrete heap for instantiating the frame theorem: addresses 0 and 1
belong to mm1's entry, 2 and 3 to mm2's, 4 is the allocation frontier. -/
def heap0 : Heap where
  pkMem := fun _ => ∅
  fMem := fun _ => ∅
  next := 4

theorem merge_pk_maps_frame_witness :
    (hMerge heap0 [(8, 0, 1)] [(9, 2, 3)]).1.pkMem 2 = heap0.pkMem 2 ∧
    (hMerge heap0 [(8, 0, 1)] [(9, 2, 3)]).1.fMem 2 = heap0.fMem 2 :=
  (merge_pk_maps_frame heap0 [(8, 0, 1)] [(9, 2, 3)] (by decide) (by decide)
    (by decide)).1 2 (by decide)

end ComputedFields
